import Mathlib

/-!
A verification development for `runtime/runtime/src/pipelining.rs`: the receipt
preparation pipeline (`ReceiptPreparationPipeline` with its `submit` and
`get_contract` operations).  The Rust code is shallowly embedded: pure data and
control flow are translated into executable Lean definitions, the opaque
`prepare_function_call` builder is represented by the tuple of inputs that
determine its result, and the per-task mutex/condvar protocol between the
spawned worker and the consuming thread is modelled as a small labelled
transition system whose atomic steps are the source's critical sections.
-/

namespace Pipelining

/-- `AccountId` from `near_primitives::types`; modelled as a string. -/
abbrev AccountId := String

/-- `CryptoHash`; modelled as a natural number. -/
abbrev CryptoHash := Nat

/-- `Gas` (u64 gas amounts; no arithmetic is performed on them here). -/
abbrev Gas := Nat

/-- `GlobalContractIdentifier`: either a code hash or an account id. -/
inductive GlobalContractIdentifier where
  | codeHash (h : CryptoHash)
  | accountId (id : AccountId)
deriving DecidableEq, Repr

/-- `Action` from `near_primitives::action`.  Only the fields the pipeline
reads are kept: `FunctionCall`'s method name and attached gas.  The payloads of
the remaining variants are never inspected by `pipelining.rs`. -/
inductive Action where
  | functionCall (methodName : String) (gas : Gas)
  | deployContract
  | useGlobalContract
  | delegate
  | createAccount
  | transfer
  | stake
  | addKey
  | deleteKey
  | deleteAccount
  | deployGlobalContract
deriving DecidableEq, Repr

/-- `ReceiptEnum`: the receipt payload variants distinguished in
`pipelining.rs`.  `data` and `promiseResume` carry payloads the pipeline never
reads. -/
inductive ReceiptEnum where
  | action (actions : List Action)
  | promiseYield (actions : List Action)
  | globalContractDistribution (id : GlobalContractIdentifier)
  | data
  | promiseResume
deriving DecidableEq, Repr

/-- A receipt: its hash (`get_hash`), receiver (`receiver_id`) and payload. -/
structure Receipt where
  hash : CryptoHash
  receiverId : AccountId
  receipt : ReceiptEnum
deriving DecidableEq, Repr

/-- `AccountContract` (the account's contract binding read from state). -/
inductive AccountContract where
  | none
  | localContract (h : CryptoHash)
  | global (h : CryptoHash)
  | globalByAccount (id : AccountId)
deriving DecidableEq, Repr

/-- The slice of `Account` that `submit` reads (only `.contract()`). -/
structure Account where
  contract : AccountContract
deriving DecidableEq, Repr

/-- The read-only committed state supplied to `submit`.  `getAccount` models
`get_pure::<Account>` on the `TrieKey::Account` key: `Option.none` covers both
an absent account and a failed read (the source treats `Err(_)` and `Ok(None)`
identically with a single `let Ok(Some(..)) .. else continue`).  `getGlobalCode`
models `state_update.get_ref` on the `TrieKey::GlobalContractCode` key with
`NO_SIDE_EFFECTS`, yielding the value hash of the entry. -/
structure StateSnapshot where
  getAccount : AccountId → Option Account
  getGlobalCode : AccountId → Option CryptoHash

/-- The slice of `RuntimeConfig` that the pipeline reads: the parts of
`wasm_config` used to build gas counters.  `extCosts` stands for the (opaque)
`ext_costs` table. -/
structure RuntimeConfig where
  extCosts : Nat
  maxGasBurnt : Gas
  regularOpCost : Nat
deriving DecidableEq, Repr

/-- `GasCounter::new(ext_costs, max_gas_burnt, regular_op_cost, gas, is_view)`:
represented by its construction arguments. -/
structure GasCounter where
  extCosts : Nat
  maxGasBurnt : Gas
  regularOpCost : Nat
  gas : Gas
  isView : Bool
deriving DecidableEq, Repr

/-- `prepare_function_call` is an opaque pure function of its inputs (it calls
`near_vm_runner::prepare`); a prepared contract is therefore represented by the
inputs that determine it.  The contract storage, the contract cache and the
wasm config are pipeline-wide constants and are omitted from the tuple. -/
structure PreparedContract where
  codeHash : CryptoHash
  accountId : AccountId
  methodName : String
  gasCounter : GasCounter
deriving DecidableEq, Repr

/-- The embedding of the free function `prepare_function_call`. -/
def prepare_function_call (gasCounter : GasCounter) (codeHash : CryptoHash)
    (accountId : AccountId) (methodName : String) : PreparedContract :=
  { codeHash, accountId, methodName, gasCounter }

/-- `PrepareTaskStatus`. -/
inductive PrepareTaskStatus where
  | pending
  | working
  | prepared (c : PreparedContract)
  | finished
deriving DecidableEq, Repr

/-- A `PrepareTask` together with the data captured by the worker closure
spawned for it in `submit` (code hash, receiver, method name, gas counter). -/
structure PrepareTask where
  status : PrepareTaskStatus
  codeHash : CryptoHash
  accountId : AccountId
  methodName : String
  gasCounter : GasCounter
deriving DecidableEq, Repr

/-- `PrepareTaskKey`: the `(receipt_id, action_index)` pair. -/
abbrev PrepareTaskKey := CryptoHash × Nat

/-- The pipeline.  The `BTreeMap` task table is modelled as an association
list (insertion order; `lookupTask` returns the first match), the `BTreeSet`
of blocked accounts and the `HashSet` of blocked global contracts as lists
used as sets.  The contract cache and storage handles are pipeline-wide
constants absorbed into `prepare_function_call` and omitted. -/
structure ReceiptPreparationPipeline where
  map : List (PrepareTaskKey × PrepareTask)
  block_accounts : List AccountId
  block_global_contracts : List GlobalContractIdentifier
  config : RuntimeConfig
deriving DecidableEq, Repr

/-- `ReceiptPreparationPipeline::new`. -/
def ReceiptPreparationPipeline.new (config : RuntimeConfig) :
    ReceiptPreparationPipeline :=
  { map := [], block_accounts := [], block_global_contracts := [], config }

/-- First-match lookup in the task table. -/
def lookupTask (map : List (PrepareTaskKey × PrepareTask)) (k : PrepareTaskKey) :
    Option PrepareTask :=
  match map with
  | [] => Option.none
  | (k2, t) :: rest => if k2 = k then some t else lookupTask rest k

/-- Overwrite the status of the task stored under `k` (first match). -/
def setTaskStatus (map : List (PrepareTaskKey × PrepareTask)) (k : PrepareTaskKey)
    (s : PrepareTaskStatus) : List (PrepareTaskKey × PrepareTask) :=
  match map with
  | [] => []
  | (k2, t) :: rest =>
    if k2 = k then (k2, { t with status := s }) :: rest
    else (k2, t) :: setTaskStatus rest k s

/-- `BTreeSet::insert` on the blocked-accounts set (only the set; the returned
boolean is recomputed at the call site as in the source's `return`). -/
def insertAccount (s : List AccountId) (a : AccountId) : List AccountId :=
  if a ∈ s then s else a :: s

/-- `HashSet::insert` on the blocked-global-contracts set. -/
def insertGlobal (s : List GlobalContractIdentifier)
    (id : GlobalContractIdentifier) : List GlobalContractIdentifier :=
  if id ∈ s then s else id :: s

/-- `ReceiptPreparationPipeline::gas_counter` (lines 357-369): the
`view_config` is modelled by its only field `max_gas_burnt`. -/
def ReceiptPreparationPipeline.gas_counter (p : ReceiptPreparationPipeline)
    (view_config : Option Gas) (gas : Gas) : GasCounter :=
  { extCosts := p.config.extCosts
    maxGasBurnt :=
      match view_config with
      | some maxGasBurnt => maxGasBurnt
      | Option.none => p.config.maxGasBurnt
    regularOpCost := p.config.regularOpCost
    gas := gas
    isView := view_config.isSome }

/-- Lines 158-192 of `submit`: derive the code hash to prepare for a function
call from the receiver account's contract binding.  `Option.none` means the
action is skipped (no task). -/
def resolveCodeHash (p : ReceiptPreparationPipeline) (su : StateSnapshot)
    (account : Account) : Option CryptoHash :=
  match account.contract with
  | .none => Option.none
  | .localContract h => some h
  | .global h =>
    if GlobalContractIdentifier.codeHash h ∈ p.block_global_contracts then
      Option.none
    else some h
  | .globalByAccount id =>
    if GlobalContractIdentifier.accountId id ∈ p.block_global_contracts then
      Option.none
    else su.getGlobalCode id

/-- The result of `submit`: the returned boolean, the pipeline afterwards, and
the keys for which a worker was spawned via `rayon::spawn_fifo` (in spawn
order). -/
structure SubmitOutcome where
  result : Bool
  pipeline : ReceiptPreparationPipeline
  spawned : List PrepareTaskKey
deriving Repr

/-- The `for (action_index, action) in actions.iter().enumerate()` loop of
`submit` (lines 135-248).  `action_index` is the enumeration counter,
`accountCache` the memoized `account` local, `anyFunctionCalls` and `spawned`
the accumulators, `p` the pipeline being mutated. -/
def submitLoop (su : StateSnapshot) (receiptHash : CryptoHash)
    (accountId : AccountId) (view_config : Option Gas) :
    List Action → Nat → Option Account → Bool → List PrepareTaskKey →
    ReceiptPreparationPipeline → SubmitOutcome
  | [], _, _, anyFunctionCalls, spawned, p => ⟨anyFunctionCalls, p, spawned⟩
  | a :: rest, action_index, accountCache, anyFunctionCalls, spawned, p =>
    match a with
    | .deployContract | .useGlobalContract =>
      -- `return self.block_accounts.insert(account_id)` (line 142)
      ⟨decide (accountId ∉ p.block_accounts),
       { p with block_accounts := insertAccount p.block_accounts accountId },
       spawned⟩
    | .functionCall method_name gas =>
      match accountCache.or (su.getAccount accountId) with
      | Option.none =>
        -- missing account or failed read: `continue` (line 154)
        submitLoop su receiptHash accountId view_config rest (action_index + 1)
          accountCache anyFunctionCalls spawned p
      | some account =>
        match resolveCodeHash p su account with
        | Option.none =>
          -- no code / blocked global / failed trie read: `continue`
          submitLoop su receiptHash accountId view_config rest (action_index + 1)
            (some account) anyFunctionCalls spawned p
        | some code_hash =>
          let key : PrepareTaskKey := (receiptHash, action_index)
          match lookupTask p.map key with
          | some _ =>
            -- `Entry::Occupied(_) => continue` (line 199)
            submitLoop su receiptHash accountId view_config rest (action_index + 1)
              (some account) anyFunctionCalls spawned p
          | Option.none =>
            let gas_counter := p.gas_counter view_config gas
            let task : PrepareTask :=
              { status := .pending, codeHash := code_hash, accountId := accountId
                methodName := method_name, gasCounter := gas_counter }
            submitLoop su receiptHash accountId view_config rest (action_index + 1)
              (some account) true (spawned ++ [key])
              { p with map := p.map ++ [(key, task)] }
    | _ =>
      -- `Delegate`, `CreateAccount`, `Transfer`, `Stake`, `AddKey`,
      -- `DeleteKey`, `DeleteAccount`, `DeployGlobalContract`: no handling
      submitLoop su receiptHash accountId view_config rest (action_index + 1)
        accountCache anyFunctionCalls spawned p

/-- `ReceiptPreparationPipeline::submit` (lines 115-250). -/
def submit (p : ReceiptPreparationPipeline) (receipt : Receipt)
    (su : StateSnapshot) (view_config : Option Gas) : SubmitOutcome :=
  let account_id := receipt.receiverId
  if account_id ∈ p.block_accounts then ⟨false, p, []⟩
  else
    match receipt.receipt with
    | .action actions | .promiseYield actions =>
      submitLoop su receipt.hash account_id view_config actions 0 Option.none
        false [] p
    | .globalContractDistribution id =>
      ⟨false,
       { p with block_global_contracts :=
          insertGlobal p.block_global_contracts id },
       []⟩
    | .data | .promiseResume => ⟨false, p, []⟩

/-- The worker closure spawned at line 210, run to completion, as a function
on the task it owns: it atomically swaps the status for `Working`; if the old
status was `Pending` it prepares the contract from its captured inputs and
stores `Prepared`; otherwise it returns at once — leaving the swapped-in
`Working` status behind. -/
def runWorker (t : PrepareTask) : PrepareTask :=
  match t.status with
  | .pending =>
    let c := prepare_function_call t.gasCounter t.codeHash t.accountId t.methodName
    { t with status := .prepared c }
  | _ => { t with status := .working }

/-- Apply `runWorker` to the task stored under `key` in a pipeline's table. -/
def runWorkerOn (p : ReceiptPreparationPipeline) (key : PrepareTaskKey) :
    ReceiptPreparationPipeline :=
  { p with map := p.map.map fun e => if e.1 = key then (e.1, runWorker e.2) else e }

/-- The panics that `get_contract` can raise (`expect`/`panic!` sites at lines
272, 276, 280 and 351). -/
inductive PanicReason where
  | nonActionReceipt
  | actionIndexOutOfRange
  | notFunctionCall
  | alreadyTaken
deriving DecidableEq, Repr

/-- The observable side effects of one `get_contract` call: the counting
metrics it increments and whether the `tracing::debug!` at line 287 fired.
The elapsed-time accumulators are real-time quantities and are not modelled. -/
structure GetContractEffects where
  not_submitted : Bool := false
  prepared_in_main_thread : Bool := false
  found_prepared : Bool := false
  waited : Bool := false
  debug_logged : Bool := false
deriving DecidableEq, Repr

/-- The result of one `get_contract` call: the returned contract (or the
panic), the effects, and the task table afterwards. -/
structure GetContractResult where
  outcome : Except PanicReason PreparedContract
  effects : GetContractEffects
  map : List (PrepareTaskKey × PrepareTask)

/-- `ReceiptPreparationPipeline::get_contract` (lines 260-355), sequentially.
The one blocking point — the condvar wait in the `Working` arm — is modelled
by its outcome for a call whose observed `Working` status has an in-flight
worker, the only way `Working` arises on a first consumption (see the
transition system below): that worker stores `Prepared` built from its
captured inputs and notifies, and the consumer, re-examining on wakeup, takes
that contract and leaves `Finished` behind.  A task abandoned in `Working` by
the steal race has no worker left to notify, and the source call then waits
forever, neither panicking nor returning; that divergence is treated in the
transition system (see the counterexample to C8), not collapsed here. -/
def get_contract (p : ReceiptPreparationPipeline) (receipt : Receipt)
    (code_hash : CryptoHash) (action_index : Nat) (view_config : Option Gas) :
    GetContractResult :=
  let account_id := receipt.receiverId
  match receipt.receipt with
  | .globalContractDistribution _ | .data | .promiseResume =>
    ⟨.error .nonActionReceipt, {}, p.map⟩
  | .action actions | .promiseYield actions =>
    match actions[action_index]? with
    | Option.none => ⟨.error .actionIndexOutOfRange, {}, p.map⟩
    | some (.functionCall method_name gas) =>
      let key : PrepareTaskKey := (receipt.hash, action_index)
      (match lookupTask p.map key with
      | Option.none =>
        -- no task: prepare inline on the calling thread (lines 283-306)
        let gas_counter := p.gas_counter view_config gas
        let result := prepare_function_call gas_counter code_hash account_id
          method_name
        ⟨.ok result,
         { not_submitted := true,
           debug_logged := decide (account_id ∉ p.block_accounts) },
         p.map⟩
      | some task =>
        match task.status with
        | .pending =>
          -- steal: write `Finished`, drop the lock, prepare inline
          let gas_counter := p.gas_counter view_config gas
          let contract := prepare_function_call gas_counter code_hash
            account_id method_name
          ⟨.ok contract, { prepared_in_main_thread := true },
           setTaskStatus p.map key .finished⟩
        | .working =>
          -- wait on the condvar (assuming an in-flight worker, the only
          -- source of a first-consumption `Working`); on wakeup take the
          -- worker's contract
          let contract := prepare_function_call task.gasCounter task.codeHash
            task.accountId task.methodName
          ⟨.ok contract, { waited := true, found_prepared := true },
           setTaskStatus p.map key .finished⟩
        | .prepared c =>
          ⟨.ok c, { found_prepared := true }, setTaskStatus p.map key .finished⟩
        | .finished =>
          -- write `Finished` back, then panic (lines 349-352)
          ⟨.error .alreadyTaken, {}, setTaskStatus p.map key .finished⟩)
    | some _ => ⟨.error .notFunctionCall, {}, p.map⟩

/-- Projection of an outcome to its contract, if any. -/
def exceptOk (e : Except PanicReason PreparedContract) : Option PreparedContract :=
  match e with
  | .ok c => some c
  | .error _ => Option.none

/-- The panic condition of `get_contract` as the specification enumerates it:
a non-action receipt, an action index out of range, a non-function-call action
at that index, or a task found under the key whose status is `Finished`.
(This definition follows the specification's words; the theorem for the
corresponding claim compares `get_contract` against it.) -/
def getContractPanicSpec (p : ReceiptPreparationPipeline) (receipt : Receipt)
    (action_index : Nat) : Bool :=
  match receipt.receipt with
  | .action actions | .promiseYield actions =>
    match actions[action_index]? with
    | Option.none => true
    | some (.functionCall _ _) =>
      match lookupTask p.map (receipt.hash, action_index) with
      | some t => decide (t.status = PrepareTaskStatus.finished)
      | Option.none => false
    | some _ => true
  | _ => true

/-!
## The per-task concurrency protocol

A single submitted task is shared between the worker spawned at line 210 and
the consumer running `get_contract` (lines 307-354).  Both act on the status
only inside critical sections of the task's mutex, so each critical section is
one atomic step of the following labelled transition system.  The `prepared`
status always carries the worker's contract, so it needs no payload here;
which value the consumer returned is recorded in its program counter
(`retWorker` versus `retInline`).
-/

/-- Task status as observed between critical sections. -/
inductive MStatus where
  | pending
  | working
  | preparedW
  | finished
deriving DecidableEq, Repr

/-- Worker program counter: `start` before the atomic swap at lines 211-214,
`prep` after the swap returned `Pending` (preparing, will store `Prepared` and
notify), `done` after returning. -/
inductive WorkerPC where
  | start
  | prep
  | done
deriving DecidableEq, Repr

/-- Consumer program counter: `loop` holding the lock at the top of the match
(line 309), `waiting` blocked on the condvar (line 340), `inline` after
stealing a pending task (preparing on the main thread), `retWorker` /
`retInline` after returning the worker-prepared / inline-prepared contract,
`panicked` after observing `Finished`. -/
inductive ConsumerPC where
  | loop
  | waiting
  | inline
  | retWorker
  | retInline
  | panicked
deriving DecidableEq, Repr

/-- A joint configuration of a task's status, its worker and its consumer. -/
structure MConfig where
  st : MStatus
  w : WorkerPC
  c : ConsumerPC
deriving DecidableEq, Repr

/-- The worker's enabled steps.  From `start`, one atomic critical section:
`std::mem::replace(&mut *status, Working)` followed by the `Pending` check —
note the swap happens unconditionally, so a non-pending old status is still
overwritten with `Working` before the early return.  From `prep`, storing
`Prepared` and notifying. -/
def workerNexts (s : MConfig) : List MConfig :=
  match s.w with
  | .start =>
    [{ s with st := .working, w := if s.st = .pending then .prep else .done }]
  | .prep => [{ s with st := .preparedW, w := .done }]
  | .done => []

/-- The consumer's enabled steps, one per critical section of the `loop` at
lines 308-354.  The `Working` arm's swap writes `Working` back over `Working`,
so the status is unchanged when the consumer starts waiting.  A waiter can
wake only after the worker's notify, which happens exactly at its
`prepared`-storing step; hence waking is enabled exactly when the status is
`preparedW`. -/
def consumerNexts (s : MConfig) : List MConfig :=
  match s.c with
  | .loop =>
    match s.st with
    | .pending => [{ s with st := .finished, c := .inline }]
    | .working => [{ s with c := .waiting }]
    | .preparedW => [{ s with st := .finished, c := .retWorker }]
    | .finished => [{ s with st := .finished, c := .panicked }]
  | .inline => [{ s with c := .retInline }]
  | .waiting => if s.st = .preparedW then [{ s with c := .loop }] else []
  | _ => []

/-- All enabled steps of a configuration. -/
def nexts (s : MConfig) : List MConfig := workerNexts s ++ consumerNexts s

/-- One step of the protocol. -/
def MStep (s t : MConfig) : Prop := t ∈ nexts s

instance (s t : MConfig) : Decidable (MStep s t) :=
  inferInstanceAs (Decidable (t ∈ nexts s))

/-- Reachability in the protocol. -/
def MReach : MConfig → MConfig → Prop := Relation.ReflTransGen MStep

/-- The initial configuration: `submit` inserted the task with status
`Pending`, spawned the worker, and the consumer has arrived at the lock. -/
def MInit : MConfig := ⟨.pending, .start, .loop⟩

/-- The configurations reachable from `MInit` (closed under `nexts`; checked
by `decide` below). -/
def reachableSet : List MConfig :=
  [⟨.pending, .start, .loop⟩, ⟨.working, .prep, .loop⟩,
   ⟨.finished, .start, .inline⟩, ⟨.preparedW, .done, .loop⟩,
   ⟨.working, .prep, .waiting⟩, ⟨.working, .done, .inline⟩,
   ⟨.finished, .start, .retInline⟩, ⟨.preparedW, .done, .waiting⟩,
   ⟨.working, .done, .retInline⟩, ⟨.finished, .done, .retWorker⟩]

/-- A rank function decreasing along every step from a reachable
configuration: the protocol terminates. -/
def mrank (s : MConfig) : Nat :=
  match s.st, s.w, s.c with
  | .pending, .start, .loop => 5
  | .working, .prep, .loop => 4
  | .working, .prep, .waiting => 3
  | .finished, .start, .inline => 2
  | .preparedW, .done, .waiting => 2
  | .finished, .start, .retInline => 1
  | .working, .done, .inline => 1
  | .preparedW, .done, .loop => 1
  | _, _, _ => 0

/-- Fold a sequence of `submit` calls over a pipeline. -/
def applySubmits (p : ReceiptPreparationPipeline) :
    List (Receipt × StateSnapshot × Option Gas) → ReceiptPreparationPipeline
  | [] => p
  | (r, su, v) :: rest => applySubmits (submit p r su v).pipeline rest

/-- Is this action `DeployContract` or `UseGlobalContract` (the two actions
that block the receiver account and truncate `submit`'s loop)? -/
def isBlockingAction : Action → Bool
  | .deployContract => true
  | .useGlobalContract => true
  | _ => false

/-- Is this action one the pipeline does not react to at all? -/
def isInertAction : Action → Bool
  | .functionCall _ _ => false
  | .deployContract => false
  | .useGlobalContract => false
  | _ => true

/-! ### Concrete inputs used by counterexamples and witnesses -/

/-- A state snapshot with no accounts and no global contract code. -/
def emptySu : StateSnapshot := ⟨fun _ => Option.none, fun _ => Option.none⟩

/-- A small concrete runtime config. -/
def exCfg : RuntimeConfig := ⟨0, 100, 1⟩

/-- A snapshot where `alice` has a local contract with code hash 5. -/
def aliceSu : StateSnapshot :=
  ⟨fun a => if a = "alice" then some ⟨.localContract 5⟩ else Option.none,
   fun _ => Option.none⟩

/-- A receipt whose function call precedes its `DeployContract` action. -/
def c3Receipt : Receipt :=
  ⟨1, "alice", .action [.functionCall "m" 10, .deployContract]⟩

/-- The pipeline after submitting `c3Receipt` to a fresh pipeline. -/
def c3Pipeline : ReceiptPreparationPipeline :=
  (submit (ReceiptPreparationPipeline.new exCfg) c3Receipt aliceSu Option.none).pipeline

/-- A single-function-call receipt for `alice`. -/
def c6Receipt : Receipt := ⟨1, "alice", .action [.functionCall "m" 10]⟩

/-- A snapshot where `alice` has a local contract with code hash 7. -/
def c6Su : StateSnapshot :=
  ⟨fun a => if a = "alice" then some ⟨.localContract 7⟩ else Option.none,
   fun _ => Option.none⟩

/-- The pipeline after submitting `c6Receipt` and letting the spawned worker
run to completion: the task is `Prepared` with the submit-derived hash 7. -/
def c6Pipeline : ReceiptPreparationPipeline :=
  runWorkerOn
    ((submit (ReceiptPreparationPipeline.new exCfg) c6Receipt c6Su Option.none).pipeline)
    (1, 0)

/-- A single-function-call receipt for `bob` (never submitted). -/
def bobReceipt : Receipt := ⟨2, "bob", .action [.functionCall "f" 3]⟩

/-- A pipeline holding an already-consumed (`Finished`) task for
`bobReceipt`'s function call. -/
def finishedPipeline : ReceiptPreparationPipeline :=
  { map := [((2, 0), ⟨.finished, 4, "bob", "f", ⟨0, 100, 1, 3, false⟩⟩)],
    block_accounts := [], block_global_contracts := [], config := exCfg }

/-- A receipt with an `Action` (when `kind` is true) or `PromiseYield`
payload; `submit` and `get_contract` treat the two payloads identically. -/
def mkActionReceipt (kind : Bool) (hash : CryptoHash) (aid : AccountId)
    (acts : List Action) : Receipt :=
  ⟨hash, aid, match kind with
              | true => .action acts
              | false => .promiseYield acts⟩

/-- An otherwise-empty pipeline in which `alice` is already blocked. -/
def blockedPipeline : ReceiptPreparationPipeline :=
  { map := [], block_accounts := ["alice"], block_global_contracts := [],
    config := exCfg }

/-- The pipeline after the steal race on `c6Receipt`'s task: `submit` creates
the `Pending` task, a first `get_contract` steals it (writing `Finished` and
preparing inline), and the late worker then runs its unconditional swap,
abandoning the task in `Working` with no worker left to notify the condvar. -/
def c8StuckPipeline : ReceiptPreparationPipeline :=
  let submitted :=
    (submit (ReceiptPreparationPipeline.new exCfg) c6Receipt c6Su
      Option.none).pipeline
  let stolen :=
    { submitted with map := (get_contract submitted c6Receipt 7 0 Option.none).map }
  runWorkerOn stolen (1, 0)

/-! ### Helper lemmas about the task table -/

theorem lookupTask_append (l l2 : List (PrepareTaskKey × PrepareTask))
    (k : PrepareTaskKey) :
    lookupTask (l ++ l2) k = (lookupTask l k).or (lookupTask l2 k) := by
  induction l with
  | nil => simp [lookupTask, Option.or]
  | cons e rest ih =>
    obtain ⟨k2, t⟩ := e
    by_cases h : k2 = k
    · simp [lookupTask, h, Option.or]
    · simp [lookupTask, h, ih]

theorem lookupTask_eq_none_iff (l : List (PrepareTaskKey × PrepareTask))
    (k : PrepareTaskKey) :
    lookupTask l k = Option.none ↔ k ∉ l.map Prod.fst := by
  induction l with
  | nil => simp [lookupTask]
  | cons e rest ih =>
    obtain ⟨k2, t⟩ := e
    by_cases h : k2 = k
    · subst h; simp [lookupTask]
    · simp [lookupTask, h, ih, ne_comm.mp h]

theorem lookupTask_append_some (l l2 : List (PrepareTaskKey × PrepareTask))
    (k : PrepareTaskKey) (t : PrepareTask) (h : lookupTask l k = some t) :
    lookupTask (l ++ l2) k = some t := by
  rw [lookupTask_append, h]; rfl

theorem lookupTask_append_none (l l2 : List (PrepareTaskKey × PrepareTask))
    (k : PrepareTaskKey) (h : lookupTask (l ++ l2) k = Option.none) :
    lookupTask l k = Option.none := by
  rw [lookupTask_append] at h
  cases hl : lookupTask l k with
  | none => rfl
  | some t => rw [hl] at h; simp [Option.or] at h

theorem setTaskStatus_self (k : PrepareTaskKey) (s : PrepareTaskStatus) :
    ∀ (l : List (PrepareTaskKey × PrepareTask)) (t : PrepareTask),
      lookupTask l k = some t → t.status = s → setTaskStatus l k s = l := by
  intro l
  induction l with
  | nil => intro t ht _; simp [lookupTask] at ht
  | cons e rest ih =>
    intro t ht hst
    obtain ⟨k2, t2⟩ := e
    by_cases h : k2 = k
    · simp only [lookupTask, h, if_pos] at ht
      obtain rfl : t2 = t := by injection ht
      simp only [setTaskStatus, h, if_pos]
      rw [← hst]
    · simp only [lookupTask, h, if_neg, ite_false] at ht
      simp only [setTaskStatus, h, if_neg, ite_false]
      rw [ih t ht hst]

/-! ### Helper lemmas about `submit` -/

theorem submitLoop_invariants (su : StateSnapshot) (rh : CryptoHash)
    (aid : AccountId) (v : Option Gas) :
    ∀ (acts : List Action) (i : Nat) (cache : Option Account) (anyFC : Bool)
      (spawned : List PrepareTaskKey) (p : ReceiptPreparationPipeline),
      (∃ ext, (submitLoop su rh aid v acts i cache anyFC spawned p).pipeline.map
          = p.map ++ ext) ∧
      (∃ sext, (submitLoop su rh aid v acts i cache anyFC spawned p).spawned
          = spawned ++ sext) ∧
      ((p.map.map Prod.fst).Nodup →
        (((submitLoop su rh aid v acts i cache anyFC spawned p).pipeline.map).map
          Prod.fst).Nodup) ∧
      (∀ k, k ∈ (submitLoop su rh aid v acts i cache anyFC spawned p).spawned →
        k ∈ spawned ∨ lookupTask p.map k = Option.none) := by
  intro acts
  induction acts with
  | nil =>
    intro i cache anyFC spawned p
    refine ⟨⟨[], by simp [submitLoop]⟩, ⟨[], by simp [submitLoop]⟩, ?_, ?_⟩
    · intro h; simpa [submitLoop] using h
    · intro k hk; exact Or.inl (by simpa [submitLoop] using hk)
  | cons a rest ih =>
    intro i cache anyFC spawned p
    cases a with
    | deployContract =>
      refine ⟨⟨[], by simp [submitLoop]⟩, ⟨[], by simp [submitLoop]⟩, ?_, ?_⟩
      · intro h; simpa [submitLoop] using h
      · intro k hk; exact Or.inl (by simpa [submitLoop] using hk)
    | useGlobalContract =>
      refine ⟨⟨[], by simp [submitLoop]⟩, ⟨[], by simp [submitLoop]⟩, ?_, ?_⟩
      · intro h; simpa [submitLoop] using h
      · intro k hk; exact Or.inl (by simpa [submitLoop] using hk)
    | functionCall m g =>
      simp only [submitLoop]
      cases hacc : cache.or (su.getAccount aid) with
      | none => simpa only [hacc] using ih (i + 1) cache anyFC spawned p
      | some account =>
        simp only [hacc]
        cases hres : resolveCodeHash p su account with
        | none => simpa only [hres] using ih (i + 1) (some account) anyFC spawned p
        | some code_hash =>
          simp only [hres]
          cases hlk : lookupTask p.map (rh, i) with
          | some t => simpa only [hlk] using ih (i + 1) (some account) anyFC spawned p
          | none =>
            simp only [hlk]
            obtain ⟨⟨ext, hext⟩, ⟨sext, hsext⟩, hnd, hfresh⟩ :=
              ih (i + 1) (some account) true (spawned ++ [(rh, i)])
                { p with map := p.map ++
                    [((rh, i),
                      { status := .pending, codeHash := code_hash, accountId := aid
                        methodName := m, gasCounter := p.gas_counter v g })] }
            refine ⟨⟨((rh, i),
                      { status := .pending, codeHash := code_hash, accountId := aid
                        methodName := m, gasCounter := p.gas_counter v g }) :: ext,
                      by rw [hext]; simp [List.append_assoc]⟩,
                    ⟨(rh, i) :: sext, by rw [hsext]; simp [List.append_assoc]⟩,
                    ?_, ?_⟩
            · intro hnodup
              apply hnd
              simp only [List.map_append, List.map_cons, List.map_nil]
              rw [List.nodup_append]
              refine ⟨hnodup, List.nodup_singleton _, ?_⟩
              intro x hx hx2
              simp only [List.mem_singleton] at hx2
              subst hx2
              exact (lookupTask_eq_none_iff p.map (rh, i)).mp hlk hx
            · intro k hk
              rcases hfresh k hk with hin | hnone
              · rcases List.mem_append.mp hin with h1 | h1
                · exact Or.inl h1
                · simp only [List.mem_singleton] at h1
                  subst h1
                  exact Or.inr hlk
              · exact Or.inr (lookupTask_append_none _ _ _ hnone)
    | delegate => simpa only [submitLoop] using ih (i + 1) cache anyFC spawned p
    | createAccount => simpa only [submitLoop] using ih (i + 1) cache anyFC spawned p
    | transfer => simpa only [submitLoop] using ih (i + 1) cache anyFC spawned p
    | stake => simpa only [submitLoop] using ih (i + 1) cache anyFC spawned p
    | addKey => simpa only [submitLoop] using ih (i + 1) cache anyFC spawned p
    | deleteKey => simpa only [submitLoop] using ih (i + 1) cache anyFC spawned p
    | deleteAccount => simpa only [submitLoop] using ih (i + 1) cache anyFC spawned p
    | deployGlobalContract =>
      simpa only [submitLoop] using ih (i + 1) cache anyFC spawned p

theorem submit_map_ext (p : ReceiptPreparationPipeline) (r : Receipt)
    (su : StateSnapshot) (v : Option Gas) :
    ∃ ext, (submit p r su v).pipeline.map = p.map ++ ext := by
  by_cases hb : r.receiverId ∈ p.block_accounts
  · exact ⟨[], by simp [submit, hb]⟩
  · cases hr : r.receipt with
    | action acts =>
      have h := (submitLoop_invariants su r.hash r.receiverId v acts 0
        Option.none false [] p).1
      simpa [submit, hb, hr] using h
    | promiseYield acts =>
      have h := (submitLoop_invariants su r.hash r.receiverId v acts 0
        Option.none false [] p).1
      simpa [submit, hb, hr] using h
    | globalContractDistribution id => exact ⟨[], by simp [submit, hb, hr]⟩
    | data => exact ⟨[], by simp [submit, hb, hr]⟩
    | promiseResume => exact ⟨[], by simp [submit, hb, hr]⟩

theorem submit_nodup (p : ReceiptPreparationPipeline) (r : Receipt)
    (su : StateSnapshot) (v : Option Gas)
    (h : (p.map.map Prod.fst).Nodup) :
    (((submit p r su v).pipeline.map).map Prod.fst).Nodup := by
  by_cases hb : r.receiverId ∈ p.block_accounts
  · simpa [submit, hb] using h
  · cases hr : r.receipt with
    | action acts =>
      have hh := (submitLoop_invariants su r.hash r.receiverId v acts 0
        Option.none false [] p).2.2.1 h
      simpa [submit, hb, hr] using hh
    | promiseYield acts =>
      have hh := (submitLoop_invariants su r.hash r.receiverId v acts 0
        Option.none false [] p).2.2.1 h
      simpa [submit, hb, hr] using hh
    | globalContractDistribution id => simpa [submit, hb, hr] using h
    | data => simpa [submit, hb, hr] using h
    | promiseResume => simpa [submit, hb, hr] using h

theorem submit_spawned_fresh (p : ReceiptPreparationPipeline) (r : Receipt)
    (su : StateSnapshot) (v : Option Gas) (k : PrepareTaskKey)
    (h : k ∈ (submit p r su v).spawned) : lookupTask p.map k = Option.none := by
  by_cases hb : r.receiverId ∈ p.block_accounts
  · simp [submit, hb] at h
  · cases hr : r.receipt with
    | action acts =>
      have hh := (submitLoop_invariants su r.hash r.receiverId v acts 0
        Option.none false [] p).2.2.2 k
      rw [submit] at h
      simp only [hb, if_false, hr] at h
      rcases hh (by simpa using h) with h1 | h1
      · simp at h1
      · exact h1
    | promiseYield acts =>
      have hh := (submitLoop_invariants su r.hash r.receiverId v acts 0
        Option.none false [] p).2.2.2 k
      rw [submit] at h
      simp only [hb, if_false, hr] at h
      rcases hh (by simpa using h) with h1 | h1
      · simp at h1
      · exact h1
    | globalContractDistribution id => simp [submit, hb, hr] at h
    | data => simp [submit, hb, hr] at h
    | promiseResume => simp [submit, hb, hr] at h

theorem submitLoop_inert_step (su : StateSnapshot) (rh : CryptoHash)
    (aid : AccountId) (v : Option Gas) (a : Action) (rest : List Action)
    (i : Nat) (cache : Option Account) (anyFC : Bool)
    (spawned : List PrepareTaskKey) (p : ReceiptPreparationPipeline)
    (ha : isInertAction a = true) :
    submitLoop su rh aid v (a :: rest) i cache anyFC spawned p =
    submitLoop su rh aid v rest (i + 1) cache anyFC spawned p := by
  cases a with
  | functionCall m g => simp [isInertAction] at ha
  | deployContract => simp [isInertAction] at ha
  | useGlobalContract => simp [isInertAction] at ha
  | delegate => rfl
  | createAccount => rfl
  | transfer => rfl
  | stake => rfl
  | addKey => rfl
  | deleteKey => rfl
  | deleteAccount => rfl
  | deployGlobalContract => rfl

theorem submitLoop_post_irrelevant (su : StateSnapshot) (rh : CryptoHash)
    (aid : AccountId) (v : Option Gas) :
    ∀ (pre : List Action) (blk : Action) (post post' : List Action) (i : Nat)
      (cache : Option Account) (anyFC : Bool) (spawned : List PrepareTaskKey)
      (p : ReceiptPreparationPipeline),
      isBlockingAction blk = true → (∀ a ∈ pre, isBlockingAction a = false) →
      submitLoop su rh aid v (pre ++ blk :: post) i cache anyFC spawned p =
      submitLoop su rh aid v (pre ++ blk :: post') i cache anyFC spawned p := by
  intro pre
  induction pre with
  | nil =>
    intro blk post post' i cache anyFC spawned p hblk _
    cases blk <;> first | rfl | simp [isBlockingAction] at hblk
  | cons a rest ih =>
    intro blk post post' i cache anyFC spawned p hblk hpre
    have ha : isBlockingAction a = false := hpre a (List.mem_cons_self a rest)
    have hrest : ∀ x ∈ rest, isBlockingAction x = false :=
      fun x hx => hpre x (List.mem_cons_of_mem a hx)
    cases a with
    | deployContract => simp [isBlockingAction] at ha
    | useGlobalContract => simp [isBlockingAction] at ha
    | functionCall m g =>
      simp only [List.cons_append, submitLoop]
      cases hacc : cache.or (su.getAccount aid) with
      | none =>
        simpa only [hacc] using
          ih blk post post' (i + 1) cache anyFC spawned p hblk hrest
      | some account =>
        simp only [hacc]
        cases hres : resolveCodeHash p su account with
        | none =>
          simpa only [hres] using
            ih blk post post' (i + 1) (some account) anyFC spawned p hblk hrest
        | some code_hash =>
          simp only [hres]
          cases hlk : lookupTask p.map (rh, i) with
          | some t =>
            simpa only [hlk] using
              ih blk post post' (i + 1) (some account) anyFC spawned p hblk hrest
          | none =>
            simp only [hlk]
            exact ih blk post post' (i + 1) (some account) true _ _ hblk hrest
    | delegate =>
      simpa only [List.cons_append, submitLoop] using
        ih blk post post' (i + 1) cache anyFC spawned p hblk hrest
    | createAccount =>
      simpa only [List.cons_append, submitLoop] using
        ih blk post post' (i + 1) cache anyFC spawned p hblk hrest
    | transfer =>
      simpa only [List.cons_append, submitLoop] using
        ih blk post post' (i + 1) cache anyFC spawned p hblk hrest
    | stake =>
      simpa only [List.cons_append, submitLoop] using
        ih blk post post' (i + 1) cache anyFC spawned p hblk hrest
    | addKey =>
      simpa only [List.cons_append, submitLoop] using
        ih blk post post' (i + 1) cache anyFC spawned p hblk hrest
    | deleteKey =>
      simpa only [List.cons_append, submitLoop] using
        ih blk post post' (i + 1) cache anyFC spawned p hblk hrest
    | deleteAccount =>
      simpa only [List.cons_append, submitLoop] using
        ih blk post post' (i + 1) cache anyFC spawned p hblk hrest
    | deployGlobalContract =>
      simpa only [List.cons_append, submitLoop] using
        ih blk post post' (i + 1) cache anyFC spawned p hblk hrest

theorem submitLoop_first_blocking (su : StateSnapshot) (rh : CryptoHash)
    (aid : AccountId) (v : Option Gas) :
    ∀ (pre : List Action) (blk : Action) (post : List Action) (i : Nat)
      (cache : Option Account) (anyFC : Bool) (spawned : List PrepareTaskKey)
      (p : ReceiptPreparationPipeline),
      isBlockingAction blk = true → (∀ a ∈ pre, isBlockingAction a = false) →
      (submitLoop su rh aid v (pre ++ blk :: post) i cache anyFC spawned p).result
        = decide (aid ∉ p.block_accounts) ∧
      (submitLoop su rh aid v (pre ++ blk :: post) i cache anyFC
          spawned p).pipeline.block_accounts
        = insertAccount p.block_accounts aid := by
  intro pre
  induction pre with
  | nil =>
    intro blk post i cache anyFC spawned p hblk _
    cases blk <;> first | exact ⟨rfl, rfl⟩ | simp [isBlockingAction] at hblk
  | cons a rest ih =>
    intro blk post i cache anyFC spawned p hblk hpre
    have ha : isBlockingAction a = false := hpre a (List.mem_cons_self a rest)
    have hrest : ∀ x ∈ rest, isBlockingAction x = false :=
      fun x hx => hpre x (List.mem_cons_of_mem a hx)
    cases a with
    | deployContract => simp [isBlockingAction] at ha
    | useGlobalContract => simp [isBlockingAction] at ha
    | functionCall m g =>
      simp only [List.cons_append, submitLoop]
      cases hacc : cache.or (su.getAccount aid) with
      | none =>
        simpa only [hacc] using
          ih blk post (i + 1) cache anyFC spawned p hblk hrest
      | some account =>
        simp only [hacc]
        cases hres : resolveCodeHash p su account with
        | none =>
          simpa only [hres] using
            ih blk post (i + 1) (some account) anyFC spawned p hblk hrest
        | some code_hash =>
          simp only [hres]
          cases hlk : lookupTask p.map (rh, i) with
          | some t =>
            simpa only [hlk] using
              ih blk post (i + 1) (some account) anyFC spawned p hblk hrest
          | none =>
            simp only [hlk]
            exact ih blk post (i + 1) (some account) true _ _ hblk hrest
    | delegate =>
      simpa only [List.cons_append, submitLoop] using
        ih blk post (i + 1) cache anyFC spawned p hblk hrest
    | createAccount =>
      simpa only [List.cons_append, submitLoop] using
        ih blk post (i + 1) cache anyFC spawned p hblk hrest
    | transfer =>
      simpa only [List.cons_append, submitLoop] using
        ih blk post (i + 1) cache anyFC spawned p hblk hrest
    | stake =>
      simpa only [List.cons_append, submitLoop] using
        ih blk post (i + 1) cache anyFC spawned p hblk hrest
    | addKey =>
      simpa only [List.cons_append, submitLoop] using
        ih blk post (i + 1) cache anyFC spawned p hblk hrest
    | deleteKey =>
      simpa only [List.cons_append, submitLoop] using
        ih blk post (i + 1) cache anyFC spawned p hblk hrest
    | deleteAccount =>
      simpa only [List.cons_append, submitLoop] using
        ih blk post (i + 1) cache anyFC spawned p hblk hrest
    | deployGlobalContract =>
      simpa only [List.cons_append, submitLoop] using
        ih blk post (i + 1) cache anyFC spawned p hblk hrest

theorem submitLoop_nonblocking_result (su : StateSnapshot) (rh : CryptoHash)
    (aid : AccountId) (v : Option Gas) :
    ∀ (acts : List Action) (i : Nat) (cache : Option Account) (anyFC : Bool)
      (spawned : List PrepareTaskKey) (p : ReceiptPreparationPipeline),
      (∀ a ∈ acts, isBlockingAction a = false) →
      ((submitLoop su rh aid v acts i cache anyFC spawned p).result = true ↔
        (anyFC = true ∨
          (submitLoop su rh aid v acts i cache anyFC spawned p).spawned ≠ spawned)) := by
  intro acts
  induction acts with
  | nil => intro i cache anyFC spawned p _; simp [submitLoop]
  | cons a rest ih =>
    intro i cache anyFC spawned p hpre
    have ha : isBlockingAction a = false := hpre a (List.mem_cons_self a rest)
    have hrest : ∀ x ∈ rest, isBlockingAction x = false :=
      fun x hx => hpre x (List.mem_cons_of_mem a hx)
    cases a with
    | deployContract => simp [isBlockingAction] at ha
    | useGlobalContract => simp [isBlockingAction] at ha
    | functionCall m g =>
      simp only [submitLoop]
      cases hacc : cache.or (su.getAccount aid) with
      | none => simpa only [hacc] using ih (i + 1) cache anyFC spawned p hrest
      | some account =>
        simp only [hacc]
        cases hres : resolveCodeHash p su account with
        | none => simpa only [hres] using ih (i + 1) (some account) anyFC spawned p hrest
        | some code_hash =>
          simp only [hres]
          cases hlk : lookupTask p.map (rh, i) with
          | some t =>
            simpa only [hlk] using ih (i + 1) (some account) anyFC spawned p hrest
          | none =>
            simp only [hlk]
            have hr1 := (ih (i + 1) (some account) true (spawned ++ [(rh, i)])
              { p with map := p.map ++
                  [((rh, i),
                    { status := .pending, codeHash := code_hash, accountId := aid
                      methodName := m, gasCounter := p.gas_counter v g })] }
              hrest).mpr (Or.inl rfl)
            obtain ⟨sext, hs⟩ := (submitLoop_invariants su rh aid v rest (i + 1)
              (some account) true (spawned ++ [(rh, i)])
              { p with map := p.map ++
                  [((rh, i),
                    { status := .pending, codeHash := code_hash, accountId := aid
                      methodName := m, gasCounter := p.gas_counter v g })] }).2.1
            have hne : (submitLoop su rh aid v rest (i + 1) (some account) true
                (spawned ++ [(rh, i)])
                { p with map := p.map ++
                    [((rh, i),
                      { status := .pending, codeHash := code_hash, accountId := aid
                        methodName := m, gasCounter := p.gas_counter v g })] }).spawned
                ≠ spawned := by
              rw [hs]
              intro heq
              have hlen := congrArg List.length heq
              simp [List.length_append] at hlen
            simp [hr1, hne]
    | delegate => simpa only [submitLoop] using ih (i + 1) cache anyFC spawned p hrest
    | createAccount => simpa only [submitLoop] using ih (i + 1) cache anyFC spawned p hrest
    | transfer => simpa only [submitLoop] using ih (i + 1) cache anyFC spawned p hrest
    | stake => simpa only [submitLoop] using ih (i + 1) cache anyFC spawned p hrest
    | addKey => simpa only [submitLoop] using ih (i + 1) cache anyFC spawned p hrest
    | deleteKey => simpa only [submitLoop] using ih (i + 1) cache anyFC spawned p hrest
    | deleteAccount => simpa only [submitLoop] using ih (i + 1) cache anyFC spawned p hrest
    | deployGlobalContract =>
      simpa only [submitLoop] using ih (i + 1) cache anyFC spawned p hrest

theorem reachableSet_closed :
    ∀ s ∈ reachableSet, ∀ t ∈ nexts s, t ∈ reachableSet := by decide

theorem reach_mem_reachableSet (s : MConfig) (h : MReach MInit s) :
    s ∈ reachableSet := by
  induction h with
  | refl => decide
  | tail _ hstep ih => exact reachableSet_closed _ ih _ hstep

/-! ## Claims -/

/-- C3, counterexample: a single `submit` of a receipt whose `FunctionCall`
precedes its `DeployContract` leaves `alice` in the account-blocker set while
the task created for the earlier function call is still in the task table, so
the blocker set does not exclude tasks for the blocked account's function
calls. -/
theorem c3_counterexample :
    "alice" ∈ c3Pipeline.block_accounts ∧
    (lookupTask c3Pipeline.map (1, 0)).map PrepareTask.accountId
      = some "alice" := by
  decide

/-- C3, amended: once an account is in the account-blocker set, any later
`submit` of a receipt for that receiver returns `false` at once and leaves the
pipeline (in particular the task table) unchanged, spawning nothing; tasks
created before the account was blocked — such as by a `FunctionCall` action
preceding the blocking action within the same receipt — persist, since there
is no removal API. -/
theorem c3_amended (p : ReceiptPreparationPipeline) (r : Receipt)
    (su : StateSnapshot) (v : Option Gas)
    (h : r.receiverId ∈ p.block_accounts) :
    submit p r su v = ⟨false, p, []⟩ := by
  simp only [submit]
  rw [if_pos h]

theorem c3_amended_witness :
    submit blockedPipeline c3Receipt aliceSu Option.none
      = ⟨false, blockedPipeline, []⟩ :=
  c3_amended blockedPipeline c3Receipt aliceSu Option.none (by decide)

/-- C9: after any sequence of `submit` calls on a fresh pipeline the task
table's keys are pairwise distinct (at most one entry per
`(receipt_hash, action_index)`), and a submission for a key already present
leaves that key's entry exactly as it was and spawns no worker for it. -/
theorem c9_task_table_unique :
    (∀ (cfg : RuntimeConfig) (calls : List (Receipt × StateSnapshot × Option Gas)),
      (((applySubmits (ReceiptPreparationPipeline.new cfg) calls).map).map
        Prod.fst).Nodup) ∧
    (∀ (p : ReceiptPreparationPipeline) (r : Receipt) (su : StateSnapshot)
        (v : Option Gas) (k : PrepareTaskKey), k ∈ p.map.map Prod.fst →
      lookupTask (submit p r su v).pipeline.map k = lookupTask p.map k ∧
      k ∉ (submit p r su v).spawned) := by
  constructor
  · intro cfg calls
    have hgen : ∀ (cs : List (Receipt × StateSnapshot × Option Gas))
        (p : ReceiptPreparationPipeline), (p.map.map Prod.fst).Nodup →
        ((applySubmits p cs).map.map Prod.fst).Nodup := by
      intro cs
      induction cs with
      | nil => intro p h; exact h
      | cons c rest ih =>
        intro p h
        obtain ⟨r, su, v⟩ := c
        exact ih _ (submit_nodup p r su v h)
    exact hgen calls _ (by simp [ReceiptPreparationPipeline.new])
  · intro p r su v k hk
    obtain ⟨t, ht⟩ : ∃ t, lookupTask p.map k = some t := by
      cases hl : lookupTask p.map k with
      | none => exact absurd hk ((lookupTask_eq_none_iff _ _).mp hl)
      | some t => exact ⟨t, rfl⟩
    obtain ⟨ext, hext⟩ := submit_map_ext p r su v
    refine ⟨?_, ?_⟩
    · rw [hext, lookupTask_append_some _ _ _ _ ht, ht]
    · intro hsp
      have hnone := submit_spawned_fresh p r su v k hsp
      rw [ht] at hnone
      exact Option.noConfusion hnone

theorem c9_task_table_unique_witness :
    ((applySubmits (ReceiptPreparationPipeline.new exCfg)
        [(c6Receipt, c6Su, Option.none)]).map.map Prod.fst).Nodup ∧
    lookupTask (submit finishedPipeline bobReceipt emptySu
        Option.none).pipeline.map (2, 0)
      = lookupTask finishedPipeline.map (2, 0) ∧
    (2, 0) ∉ (submit finishedPipeline bobReceipt emptySu Option.none).spawned :=
  ⟨c9_task_table_unique.1 exCfg [(c6Receipt, c6Su, Option.none)],
   c9_task_table_unique.2 finishedPipeline bobReceipt emptySu Option.none (2, 0)
     (by decide)⟩

/-- C4: (a) a receipt whose receiver is already account-blocked makes `submit`
return `false` immediately, changing nothing; (b) on the first `DeployContract`
or `UseGlobalContract` action encountered, `submit` inserts the receiver into
the account-blocker set, returns the boolean result of that insertion, and the
actions after it are never examined (the outcome is the same for any suffix);
(c) with no blocking action in the receipt, `submit` returns `true` iff at
least one function-call preparation task was scheduled; (d) an action that is
neither `FunctionCall` nor `DeployContract`/`UseGlobalContract` leaves the
loop state — task table, blocker sets, accumulators — untouched. -/
theorem c4_submit_dispatch :
    (∀ (p : ReceiptPreparationPipeline) (r : Receipt) (su : StateSnapshot)
        (v : Option Gas), r.receiverId ∈ p.block_accounts →
      submit p r su v = ⟨false, p, []⟩) ∧
    (∀ (p : ReceiptPreparationPipeline) (su : StateSnapshot) (v : Option Gas)
        (hash : CryptoHash) (aid : AccountId) (kind : Bool)
        (pre post post' : List Action) (blk : Action),
      isBlockingAction blk = true → (∀ a ∈ pre, isBlockingAction a = false) →
      aid ∉ p.block_accounts →
      submit p (mkActionReceipt kind hash aid (pre ++ blk :: post)) su v
        = submit p (mkActionReceipt kind hash aid (pre ++ blk :: post')) su v ∧
      (submit p (mkActionReceipt kind hash aid (pre ++ blk :: post)) su v).result
        = true ∧
      (submit p (mkActionReceipt kind hash aid (pre ++ blk :: post))
          su v).pipeline.block_accounts
        = insertAccount p.block_accounts aid) ∧
    (∀ (p : ReceiptPreparationPipeline) (su : StateSnapshot) (v : Option Gas)
        (hash : CryptoHash) (aid : AccountId) (kind : Bool) (acts : List Action),
      (∀ a ∈ acts, isBlockingAction a = false) → aid ∉ p.block_accounts →
      ((submit p (mkActionReceipt kind hash aid acts) su v).result = true ↔
        (submit p (mkActionReceipt kind hash aid acts) su v).spawned ≠ [])) ∧
    (∀ (su : StateSnapshot) (rh : CryptoHash) (aid : AccountId) (v : Option Gas)
        (a : Action) (rest : List Action) (i : Nat) (cache : Option Account)
        (anyFC : Bool) (spawned : List PrepareTaskKey)
        (p : ReceiptPreparationPipeline), isInertAction a = true →
      submitLoop su rh aid v (a :: rest) i cache anyFC spawned p
        = submitLoop su rh aid v rest (i + 1) cache anyFC spawned p) := by
  refine ⟨?_, ?_, ?_, ?_⟩
  · intro p r su v h
    simp only [submit]
    rw [if_pos h]
  · intro p su v hash aid kind pre post post' blk hblk hpre hb
    have hfb := submitLoop_first_blocking su hash aid v pre blk post 0
      Option.none false [] p hblk hpre
    have hpi := submitLoop_post_irrelevant su hash aid v pre blk post post' 0
      Option.none false [] p hblk hpre
    cases kind with
    | true =>
      simp only [mkActionReceipt, submit]
      rw [if_neg hb, if_neg hb]
      exact ⟨hpi, by rw [hfb.1]; exact decide_eq_true hb, hfb.2⟩
    | false =>
      simp only [mkActionReceipt, submit]
      rw [if_neg hb, if_neg hb]
      exact ⟨hpi, by rw [hfb.1]; exact decide_eq_true hb, hfb.2⟩
  · intro p su v hash aid kind acts hnb hb
    have hres := submitLoop_nonblocking_result su hash aid v acts 0 Option.none
      false [] p hnb
    cases kind with
    | true =>
      simp only [mkActionReceipt, submit]
      rw [if_neg hb]
      simpa using hres
    | false =>
      simp only [mkActionReceipt, submit]
      rw [if_neg hb]
      simpa using hres
  · intro su rh aid v a rest i cache anyFC spawned p ha
    exact submitLoop_inert_step su rh aid v a rest i cache anyFC spawned p ha

theorem c4_submit_dispatch_witness :
    submit blockedPipeline c3Receipt aliceSu Option.none
      = ⟨false, blockedPipeline, []⟩ ∧
    (submit (ReceiptPreparationPipeline.new exCfg)
        (mkActionReceipt true 1 "alice" [.deployContract, .transfer])
        aliceSu Option.none).result = true ∧
    ((submit (ReceiptPreparationPipeline.new exCfg) c6Receipt c6Su
        Option.none).result = true ↔
      (submit (ReceiptPreparationPipeline.new exCfg) c6Receipt c6Su
        Option.none).spawned ≠ []) ∧
    submitLoop aliceSu 1 "alice" Option.none [.transfer] 0 Option.none false []
        (ReceiptPreparationPipeline.new exCfg)
      = submitLoop aliceSu 1 "alice" Option.none [] 1 Option.none false []
        (ReceiptPreparationPipeline.new exCfg) :=
  ⟨c4_submit_dispatch.1 blockedPipeline c3Receipt aliceSu Option.none (by decide),
   (c4_submit_dispatch.2.1 (ReceiptPreparationPipeline.new exCfg) aliceSu
     Option.none 1 "alice" true [] [.transfer] [.transfer] .deployContract
     (by decide) (by intro a ha; simp at ha) (by decide)).2.1,
   c4_submit_dispatch.2.2.1 (ReceiptPreparationPipeline.new exCfg) c6Su
     Option.none 1 "alice" true [.functionCall "m" 10]
     (by intro a ha; simp at ha; rw [ha]; rfl) (by decide),
   c4_submit_dispatch.2.2.2 aliceSu 1 "alice" Option.none .transfer [] 0
     Option.none false [] (ReceiptPreparationPipeline.new exCfg) (by decide)⟩

/-- C5: during `submit`'s handling of a `FunctionCall`, (1) a receiver absent
from the state snapshot (or whose read failed) makes the action a skip; the
code hash is then derived from the account's contract binding: (2) `None`
skips, (3) `Local(h)` yields `h`, (4) `Global(h)` skips iff `CodeHash h` is in
the global-blocker set and yields `h` otherwise, (5) `GlobalByAccount(id)`
skips iff `AccountId id` is in the global-blocker set and otherwise yields the
value hash of the global-contract-code trie entry for `id`, skipping when that
lookup fails; (6) a skip leaves the loop state unchanged — no task is
created. -/
theorem c5_code_hash_resolution :
    (∀ (su : StateSnapshot) (rh : CryptoHash) (aid : AccountId) (v : Option Gas)
        (i : Nat) (m : String) (g : Gas) (rest : List Action) (anyFC : Bool)
        (spawned : List PrepareTaskKey) (p : ReceiptPreparationPipeline),
      su.getAccount aid = Option.none →
      submitLoop su rh aid v (.functionCall m g :: rest) i Option.none anyFC
          spawned p
        = submitLoop su rh aid v rest (i + 1) Option.none anyFC spawned p) ∧
    (∀ (p : ReceiptPreparationPipeline) (su : StateSnapshot),
      resolveCodeHash p su ⟨AccountContract.none⟩ = Option.none) ∧
    (∀ (p : ReceiptPreparationPipeline) (su : StateSnapshot) (h : CryptoHash),
      resolveCodeHash p su ⟨AccountContract.localContract h⟩ = some h) ∧
    (∀ (p : ReceiptPreparationPipeline) (su : StateSnapshot) (h : CryptoHash),
      resolveCodeHash p su ⟨AccountContract.global h⟩ =
        if GlobalContractIdentifier.codeHash h ∈ p.block_global_contracts then
          Option.none
        else some h) ∧
    (∀ (p : ReceiptPreparationPipeline) (su : StateSnapshot) (id : AccountId),
      resolveCodeHash p su ⟨AccountContract.globalByAccount id⟩ =
        if GlobalContractIdentifier.accountId id ∈ p.block_global_contracts then
          Option.none
        else su.getGlobalCode id) ∧
    (∀ (su : StateSnapshot) (rh : CryptoHash) (aid : AccountId) (v : Option Gas)
        (i : Nat) (m : String) (g : Gas) (rest : List Action)
        (cache : Option Account) (account : Account) (anyFC : Bool)
        (spawned : List PrepareTaskKey) (p : ReceiptPreparationPipeline),
      cache.or (su.getAccount aid) = some account →
      resolveCodeHash p su account = Option.none →
      submitLoop su rh aid v (.functionCall m g :: rest) i cache anyFC spawned p
        = submitLoop su rh aid v rest (i + 1) (some account) anyFC spawned p) := by
  refine ⟨?_, fun p su => rfl, fun p su h => rfl, fun p su h => rfl,
    fun p su id => rfl, ?_⟩
  · intro su rh aid v i m g rest anyFC spawned p hga
    simp only [submitLoop, Option.or, hga]
  · intro su rh aid v i m g rest cache account anyFC spawned p hacc hres
    simp only [submitLoop, hacc, hres]

theorem c5_code_hash_resolution_witness :
    submitLoop emptySu 1 "ghost" Option.none [.functionCall "m" 10] 0
        Option.none false [] (ReceiptPreparationPipeline.new exCfg)
      = submitLoop emptySu 1 "ghost" Option.none [] 1 Option.none false []
        (ReceiptPreparationPipeline.new exCfg) ∧
    resolveCodeHash (ReceiptPreparationPipeline.new exCfg) emptySu
        ⟨AccountContract.global 5⟩ = some 5 ∧
    submitLoop aliceSu 1 "alice" Option.none [.functionCall "m" 10] 0
        (some ⟨AccountContract.none⟩) false []
        (ReceiptPreparationPipeline.new exCfg)
      = submitLoop aliceSu 1 "alice" Option.none [] 1
        (some ⟨AccountContract.none⟩) false []
        (ReceiptPreparationPipeline.new exCfg) :=
  ⟨c5_code_hash_resolution.1 emptySu 1 "ghost" Option.none 0 "m" 10 [] false []
     (ReceiptPreparationPipeline.new exCfg) rfl,
   by rw [c5_code_hash_resolution.2.2.2.1 (ReceiptPreparationPipeline.new exCfg)
        emptySu 5]; rfl,
   c5_code_hash_resolution.2.2.2.2.2 aliceSu 1 "alice" Option.none 0 "m" 10 []
     (some ⟨AccountContract.none⟩) ⟨AccountContract.none⟩ false []
     (ReceiptPreparationPipeline.new exCfg) rfl rfl⟩

/-- C6, counterexample: after `submit` derives code hash 7 for `alice` and the
worker prepares the task, a `get_contract` call passing code hash 9 for the
same key returns the worker's contract, which was prepared with code hash 7 —
not with `get_contract`'s argument. -/
theorem c6_counterexample :
    exceptOk (get_contract c6Pipeline c6Receipt 9 0 Option.none).outcome
      = some ⟨7, "alice", "m", ⟨0, 100, 1, 10, false⟩⟩ ∧ (7 : CryptoHash) ≠ 9 := by
  decide

/-- C6, amended: the contract `get_contract` returns is produced by
`prepare_function_call` with the `code_hash` argument on the no-task inline
path and the `Pending`-steal path; on the worker-prepared paths (status
`Working` or `Prepared`) it carries the code hash derived at `submit` time, so
the returned contract's code hash equals the argument whenever the argument
agrees with that submit-derived hash (as it does for the runtime's callers). -/
theorem c6_amended (p : ReceiptPreparationPipeline) (r : Receipt)
    (code_hash : CryptoHash) (i : Nat) (v : Option Gas) (c : PreparedContract)
    (htask : ∀ t, lookupTask p.map (r.hash, i) = some t →
      (t.status = .working → t.codeHash = code_hash) ∧
      (∀ pc, t.status = .prepared pc → pc.codeHash = code_hash))
    (hok : (get_contract p r code_hash i v).outcome = .ok c) :
    c.codeHash = code_hash := by
  cases hr : r.receipt with
  | globalContractDistribution id => simp [get_contract, hr] at hok
  | data => simp [get_contract, hr] at hok
  | promiseResume => simp [get_contract, hr] at hok
  | action acts =>
    cases hi : acts[i]? with
    | none => simp [get_contract, hr, hi] at hok
    | some a =>
      cases a with
      | functionCall m g =>
        cases hlk : lookupTask p.map (r.hash, i) with
        | none =>
          simp [get_contract, hr, hi, hlk] at hok
          rw [← hok]
          rfl
        | some t =>
          have ht := htask t hlk
          cases hst : t.status with
          | pending =>
            simp [get_contract, hr, hi, hlk, hst] at hok
            rw [← hok]
            rfl
          | working =>
            simp [get_contract, hr, hi, hlk, hst] at hok
            rw [← hok]
            exact ht.1 hst
          | prepared pc =>
            simp [get_contract, hr, hi, hlk, hst] at hok
            rw [← hok]
            exact ht.2 pc hst
          | finished => simp [get_contract, hr, hi, hlk, hst] at hok
      | deployContract => simp [get_contract, hr, hi] at hok
      | useGlobalContract => simp [get_contract, hr, hi] at hok
      | delegate => simp [get_contract, hr, hi] at hok
      | createAccount => simp [get_contract, hr, hi] at hok
      | transfer => simp [get_contract, hr, hi] at hok
      | stake => simp [get_contract, hr, hi] at hok
      | addKey => simp [get_contract, hr, hi] at hok
      | deleteKey => simp [get_contract, hr, hi] at hok
      | deleteAccount => simp [get_contract, hr, hi] at hok
      | deployGlobalContract => simp [get_contract, hr, hi] at hok
  | promiseYield acts =>
    cases hi : acts[i]? with
    | none => simp [get_contract, hr, hi] at hok
    | some a =>
      cases a with
      | functionCall m g =>
        cases hlk : lookupTask p.map (r.hash, i) with
        | none =>
          simp [get_contract, hr, hi, hlk] at hok
          rw [← hok]
          rfl
        | some t =>
          have ht := htask t hlk
          cases hst : t.status with
          | pending =>
            simp [get_contract, hr, hi, hlk, hst] at hok
            rw [← hok]
            rfl
          | working =>
            simp [get_contract, hr, hi, hlk, hst] at hok
            rw [← hok]
            exact ht.1 hst
          | prepared pc =>
            simp [get_contract, hr, hi, hlk, hst] at hok
            rw [← hok]
            exact ht.2 pc hst
          | finished => simp [get_contract, hr, hi, hlk, hst] at hok
      | deployContract => simp [get_contract, hr, hi] at hok
      | useGlobalContract => simp [get_contract, hr, hi] at hok
      | delegate => simp [get_contract, hr, hi] at hok
      | createAccount => simp [get_contract, hr, hi] at hok
      | transfer => simp [get_contract, hr, hi] at hok
      | stake => simp [get_contract, hr, hi] at hok
      | addKey => simp [get_contract, hr, hi] at hok
      | deleteKey => simp [get_contract, hr, hi] at hok
      | deleteAccount => simp [get_contract, hr, hi] at hok
      | deployGlobalContract => simp [get_contract, hr, hi] at hok

theorem c6_amended_witness :
    (prepare_function_call
        ((ReceiptPreparationPipeline.new exCfg).gas_counter Option.none 3) 4
        "bob" "f").codeHash = 4 :=
  c6_amended (ReceiptPreparationPipeline.new exCfg) bobReceipt 4 0 Option.none _
    (fun _ ht => Option.noConfusion ht) rfl

/-- C7: when no task exists for the key, `get_contract` prepares the contract
inline on the calling thread via `prepare_function_call`, with a freshly built
gas counter from the action's gas and the view config, returns that result,
records the not-submitted metric, and emits the debug log exactly when the
receiver account is not in the account-blocker set. -/
theorem c7_no_task_inline (p : ReceiptPreparationPipeline) (r : Receipt)
    (code_hash : CryptoHash) (i : Nat) (v : Option Gas) (acts : List Action)
    (m : String) (g : Gas)
    (hr : r.receipt = .action acts ∨ r.receipt = .promiseYield acts)
    (hi : acts[i]? = some (.functionCall m g))
    (hlk : lookupTask p.map (r.hash, i) = Option.none) :
    get_contract p r code_hash i v =
      ⟨.ok (prepare_function_call (p.gas_counter v g) code_hash r.receiverId m),
       { not_submitted := true,
         debug_logged := decide (r.receiverId ∉ p.block_accounts) },
       p.map⟩ := by
  rcases hr with hr | hr <;> simp [get_contract, hr, hi, hlk]

theorem c7_no_task_inline_witness :
    get_contract (ReceiptPreparationPipeline.new exCfg) bobReceipt 4 0
        Option.none =
      ⟨.ok (prepare_function_call
          ((ReceiptPreparationPipeline.new exCfg).gas_counter Option.none 3) 4
          "bob" "f"),
       { not_submitted := true, debug_logged := true }, []⟩ := by
  have h := c7_no_task_inline (ReceiptPreparationPipeline.new exCfg) bobReceipt
    4 0 Option.none [.functionCall "f" 3] "f" 3 (Or.inl rfl) rfl rfl
  simpa using h

/-- Helper: over the sequential model (in which a `Working` wait is resolved
by an in-flight worker), the outcome of `get_contract` is a panic exactly when
`getContractPanicSpec` holds, and a prepared contract otherwise. -/
theorem getContract_panic_iff_model (p : ReceiptPreparationPipeline) (r : Receipt)
    (code_hash : CryptoHash) (i : Nat) (v : Option Gas) :
    exceptOk (get_contract p r code_hash i v).outcome = Option.none ↔
      getContractPanicSpec p r i = true := by
  cases hr : r.receipt with
  | globalContractDistribution id =>
    simp [get_contract, getContractPanicSpec, hr, exceptOk]
  | data => simp [get_contract, getContractPanicSpec, hr, exceptOk]
  | promiseResume => simp [get_contract, getContractPanicSpec, hr, exceptOk]
  | action acts =>
    cases hi : acts[i]? with
    | none => simp [get_contract, getContractPanicSpec, hr, hi, exceptOk]
    | some a =>
      cases a with
      | functionCall m g =>
        cases hlk : lookupTask p.map (r.hash, i) with
        | none => simp [get_contract, getContractPanicSpec, hr, hi, hlk, exceptOk]
        | some t =>
          cases hst : t.status <;>
            simp [get_contract, getContractPanicSpec, hr, hi, hlk, hst, exceptOk]
      | deployContract => simp [get_contract, getContractPanicSpec, hr, hi, exceptOk]
      | useGlobalContract => simp [get_contract, getContractPanicSpec, hr, hi, exceptOk]
      | delegate => simp [get_contract, getContractPanicSpec, hr, hi, exceptOk]
      | createAccount => simp [get_contract, getContractPanicSpec, hr, hi, exceptOk]
      | transfer => simp [get_contract, getContractPanicSpec, hr, hi, exceptOk]
      | stake => simp [get_contract, getContractPanicSpec, hr, hi, exceptOk]
      | addKey => simp [get_contract, getContractPanicSpec, hr, hi, exceptOk]
      | deleteKey => simp [get_contract, getContractPanicSpec, hr, hi, exceptOk]
      | deleteAccount => simp [get_contract, getContractPanicSpec, hr, hi, exceptOk]
      | deployGlobalContract =>
        simp [get_contract, getContractPanicSpec, hr, hi, exceptOk]
  | promiseYield acts =>
    cases hi : acts[i]? with
    | none => simp [get_contract, getContractPanicSpec, hr, hi, exceptOk]
    | some a =>
      cases a with
      | functionCall m g =>
        cases hlk : lookupTask p.map (r.hash, i) with
        | none => simp [get_contract, getContractPanicSpec, hr, hi, hlk, exceptOk]
        | some t =>
          cases hst : t.status <;>
            simp [get_contract, getContractPanicSpec, hr, hi, hlk, hst, exceptOk]
      | deployContract => simp [get_contract, getContractPanicSpec, hr, hi, exceptOk]
      | useGlobalContract => simp [get_contract, getContractPanicSpec, hr, hi, exceptOk]
      | delegate => simp [get_contract, getContractPanicSpec, hr, hi, exceptOk]
      | createAccount => simp [get_contract, getContractPanicSpec, hr, hi, exceptOk]
      | transfer => simp [get_contract, getContractPanicSpec, hr, hi, exceptOk]
      | stake => simp [get_contract, getContractPanicSpec, hr, hi, exceptOk]
      | addKey => simp [get_contract, getContractPanicSpec, hr, hi, exceptOk]
      | deleteKey => simp [get_contract, getContractPanicSpec, hr, hi, exceptOk]
      | deleteAccount => simp [get_contract, getContractPanicSpec, hr, hi, exceptOk]
      | deployGlobalContract =>
        simp [get_contract, getContractPanicSpec, hr, hi, exceptOk]

/-- C8, counterexample: the steal race reaches a terminal configuration whose
task is abandoned in `Working` with the worker done (`c8StuckPipeline` is the
corresponding concrete pipeline, built by submit, a stealing first call, and
the late worker's swap).  A second `get_contract` on that key satisfies none
of the claim's panic conditions — the status is `Working`, not `Finished` —
yet its only enabled move is to start waiting on the condvar, after which no
step is ever enabled again: the call neither panics nor returns a prepared
contract, refuting the claim's `in every other case it returns` clause. -/
theorem c8_counterexample :
    MReach MInit ⟨.working, .done, .retInline⟩ ∧
    getContractPanicSpec c8StuckPipeline c6Receipt 0 = false ∧
    nexts ⟨.working, .done, .loop⟩ = [⟨.working, .done, .waiting⟩] ∧
    nexts ⟨.working, .done, .waiting⟩ = [] ∧
    MConfig.c ⟨.working, .done, .waiting⟩ ≠ .retWorker ∧
    MConfig.c ⟨.working, .done, .waiting⟩ ≠ .retInline ∧
    MConfig.c ⟨.working, .done, .waiting⟩ ≠ .panicked := by
  refine ⟨?_, by decide, by decide, by decide, by decide, by decide, by decide⟩
  have h1 : MStep MInit ⟨.finished, .start, .inline⟩ := by decide
  have h2 : MStep ⟨.finished, .start, .inline⟩ ⟨.finished, .start, .retInline⟩ := by
    decide
  have h3 : MStep ⟨.finished, .start, .retInline⟩ ⟨.working, .done, .retInline⟩ := by
    decide
  exact Relation.ReflTransGen.head h1 (Relation.ReflTransGen.head h2
    (Relation.ReflTransGen.head h3 Relation.ReflTransGen.refl))

/-- C8, amended: `get_contract` panics exactly when called with a non-action
receipt (`GlobalContractDistribution`, `Data`, `PromiseResume`), an
`action_index` out of range, a non-`FunctionCall` action at that index, or a
task whose status is `Finished`; in every other case it returns a prepared
contract, provided every `Working` status it observes has an in-flight worker
that will store `Prepared` and notify — which holds on every first
consumption: from the initial task configuration, every maximal execution
ends with the consumer having returned a contract.  Without that proviso — a
task abandoned in `Working` by the steal race — the call's only move is into
a wait that is never notified (see the counterexample). -/
theorem c8_amended :
    (∀ (p : ReceiptPreparationPipeline) (r : Receipt) (code_hash : CryptoHash)
        (i : Nat) (v : Option Gas),
      exceptOk (get_contract p r code_hash i v).outcome = Option.none ↔
        getContractPanicSpec p r i = true) ∧
    (∀ s : MConfig, MReach MInit s → nexts s = [] →
      (s.c = .retWorker ∨ s.c = .retInline)) := by
  refine ⟨fun p r code_hash i v => getContract_panic_iff_model p r code_hash i v,
    ?_⟩
  intro s hs hterm
  have hmem := reach_mem_reachableSet s hs
  have hall : ∀ x ∈ reachableSet, nexts x = [] →
      (x.c = .retWorker ∨ x.c = .retInline) := by decide
  exact hall s hmem hterm

theorem c8_amended_witness :
    (exceptOk (get_contract finishedPipeline bobReceipt 4 0 Option.none).outcome
        = Option.none ↔
      getContractPanicSpec finishedPipeline bobReceipt 0 = true) ∧
    (MConfig.c ⟨.working, .done, .retInline⟩ = .retWorker ∨
      MConfig.c ⟨.working, .done, .retInline⟩ = .retInline) := by
  constructor
  · exact c8_amended.1 finishedPipeline bobReceipt 4 0 Option.none
  · refine c8_amended.2 ⟨.working, .done, .retInline⟩ ?_ (by decide)
    have h1 : MStep MInit ⟨.finished, .start, .inline⟩ := by decide
    have h2 : MStep ⟨.finished, .start, .inline⟩ ⟨.finished, .start, .retInline⟩ := by
      decide
    have h3 : MStep ⟨.finished, .start, .retInline⟩ ⟨.working, .done, .retInline⟩ := by
      decide
    exact Relation.ReflTransGen.head h1 (Relation.ReflTransGen.head h2
      (Relation.ReflTransGen.head h3 Relation.ReflTransGen.refl))

/-- C10: a `get_contract` call that finds the task already `Finished` writes
`Finished` back into the status before panicking, so the failed double-consume
call leaves the task table exactly as it found it. -/
theorem c10_finished_leaves_state (p : ReceiptPreparationPipeline) (r : Receipt)
    (code_hash : CryptoHash) (i : Nat) (v : Option Gas) (acts : List Action)
    (m : String) (g : Gas) (t : PrepareTask)
    (hr : r.receipt = .action acts ∨ r.receipt = .promiseYield acts)
    (hi : acts[i]? = some (.functionCall m g))
    (hlk : lookupTask p.map (r.hash, i) = some t)
    (hst : t.status = .finished) :
    (get_contract p r code_hash i v).outcome
      = .error PanicReason.alreadyTaken ∧
    (get_contract p r code_hash i v).map = p.map := by
  have hset : setTaskStatus p.map (r.hash, i) .finished = p.map :=
    setTaskStatus_self (r.hash, i) .finished p.map t hlk hst
  rcases hr with hr | hr <;> simp [get_contract, hr, hi, hlk, hst, hset]

theorem c10_finished_leaves_state_witness :
    (get_contract finishedPipeline bobReceipt 4 0 Option.none).outcome
      = .error PanicReason.alreadyTaken ∧
    (get_contract finishedPipeline bobReceipt 4 0 Option.none).map
      = finishedPipeline.map :=
  c10_finished_leaves_state finishedPipeline bobReceipt 4 0 Option.none
    [.functionCall "f" 3] "f" 3 ⟨.finished, 4, "bob", "f", ⟨0, 100, 1, 3, false⟩⟩
    (Or.inl rfl) rfl (by decide) rfl

/-- C1: the consumer side of `get_contract` on a found task behaves per
status.  In the transition system: a consumer at the top of the loop on a
`Pending` status has exactly one step — write `Finished` and go prepare inline
— after which its only step is to return the inline result; on `Working` it
has exactly one step — start waiting on the condvar, status unchanged — and
from waiting (wakeable exactly after the worker's notify) its only step is
back to the loop to re-examine; on `Prepared` its only step writes `Finished`
and returns the worker's contract.  Sequentially: a `Pending` task yields the
inline contract built from `get_contract`'s own arguments with a fresh gas
counter and leaves `Finished`; a `Prepared c` task yields exactly `c` and
leaves `Finished`; a `Working` task is waited on and yields the worker's
contract, leaving `Finished`. -/
theorem c1_consumer_protocol :
    (∀ w : WorkerPC, consumerNexts ⟨.pending, w, .loop⟩
      = [⟨.finished, w, .inline⟩]) ∧
    (∀ (st : MStatus) (w : WorkerPC), consumerNexts ⟨st, w, .inline⟩
      = [⟨st, w, .retInline⟩]) ∧
    (∀ w : WorkerPC, consumerNexts ⟨.working, w, .loop⟩
      = [⟨.working, w, .waiting⟩]) ∧
    (∀ w : WorkerPC, consumerNexts ⟨.preparedW, w, .waiting⟩
      = [⟨.preparedW, w, .loop⟩]) ∧
    (∀ w : WorkerPC, consumerNexts ⟨.preparedW, w, .loop⟩
      = [⟨.finished, w, .retWorker⟩]) ∧
    (∀ (p : ReceiptPreparationPipeline) (r : Receipt) (code_hash : CryptoHash)
        (i : Nat) (v : Option Gas) (acts : List Action) (m : String) (g : Gas)
        (t : PrepareTask),
      (r.receipt = .action acts ∨ r.receipt = .promiseYield acts) →
      acts[i]? = some (.functionCall m g) →
      lookupTask p.map (r.hash, i) = some t → t.status = .pending →
      get_contract p r code_hash i v =
        ⟨.ok (prepare_function_call (p.gas_counter v g) code_hash r.receiverId m),
         { prepared_in_main_thread := true },
         setTaskStatus p.map (r.hash, i) .finished⟩) ∧
    (∀ (p : ReceiptPreparationPipeline) (r : Receipt) (code_hash : CryptoHash)
        (i : Nat) (v : Option Gas) (acts : List Action) (m : String) (g : Gas)
        (t : PrepareTask) (c : PreparedContract),
      (r.receipt = .action acts ∨ r.receipt = .promiseYield acts) →
      acts[i]? = some (.functionCall m g) →
      lookupTask p.map (r.hash, i) = some t → t.status = .prepared c →
      get_contract p r code_hash i v =
        ⟨.ok c, { found_prepared := true },
         setTaskStatus p.map (r.hash, i) .finished⟩) ∧
    (∀ (p : ReceiptPreparationPipeline) (r : Receipt) (code_hash : CryptoHash)
        (i : Nat) (v : Option Gas) (acts : List Action) (m : String) (g : Gas)
        (t : PrepareTask),
      (r.receipt = .action acts ∨ r.receipt = .promiseYield acts) →
      acts[i]? = some (.functionCall m g) →
      lookupTask p.map (r.hash, i) = some t → t.status = .working →
      get_contract p r code_hash i v =
        ⟨.ok (prepare_function_call t.gasCounter t.codeHash t.accountId
            t.methodName),
         { waited := true, found_prepared := true },
         setTaskStatus p.map (r.hash, i) .finished⟩) := by
  refine ⟨fun w => rfl, fun st w => rfl, fun w => rfl, fun w => rfl,
    fun w => rfl, ?_, ?_, ?_⟩
  · intro p r code_hash i v acts m g t hr hi hlk hst
    rcases hr with hr | hr <;> simp [get_contract, hr, hi, hlk, hst]
  · intro p r code_hash i v acts m g t c hr hi hlk hst
    rcases hr with hr | hr <;> simp [get_contract, hr, hi, hlk, hst]
  · intro p r code_hash i v acts m g t hr hi hlk hst
    rcases hr with hr | hr <;> simp [get_contract, hr, hi, hlk, hst]

theorem c1_consumer_protocol_witness :
    consumerNexts ⟨.pending, .start, .loop⟩ = [⟨.finished, .start, .inline⟩] ∧
    get_contract c6Pipeline c6Receipt 7 0 Option.none =
      ⟨.ok ⟨7, "alice", "m", ⟨0, 100, 1, 10, false⟩⟩, { found_prepared := true },
       setTaskStatus c6Pipeline.map (1, 0) .finished⟩ :=
  ⟨c1_consumer_protocol.1 .start,
   c1_consumer_protocol.2.2.2.2.2.2.1 c6Pipeline c6Receipt 7 0 Option.none
     [.functionCall "m" 10] "m" 10
     ⟨.prepared ⟨7, "alice", "m", ⟨0, 100, 1, 10, false⟩⟩, 7, "alice", "m",
       ⟨0, 100, 1, 10, false⟩⟩
     ⟨7, "alice", "m", ⟨0, 100, 1, 10, false⟩⟩ (Or.inl rfl) rfl (by decide) rfl⟩

/-- C2, counterexample: the execution in which the consumer steals the pending
task (writing `Finished`), returns the inline contract, and only then the
worker runs its unconditional swap, reaches a terminal configuration whose
status is `Working`: no party ever transitions that task out of `Working`,
refuting the claim that no reachable execution leaves a task in `Working`
forever. -/
theorem c2_counterexample :
    MReach MInit ⟨.working, .done, .retInline⟩ ∧
    nexts ⟨.working, .done, .retInline⟩ = [] ∧
    MConfig.st ⟨.working, .done, .retInline⟩ = .working := by
  refine ⟨?_, by decide, rfl⟩
  have h1 : MStep MInit ⟨.finished, .start, .inline⟩ := by decide
  have h2 : MStep ⟨.finished, .start, .inline⟩ ⟨.finished, .start, .retInline⟩ := by
    decide
  have h3 : MStep ⟨.finished, .start, .retInline⟩ ⟨.working, .done, .retInline⟩ := by
    decide
  exact Relation.ReflTransGen.head h1 (Relation.ReflTransGen.head h2
    (Relation.ReflTransGen.head h3 Relation.ReflTransGen.refl))

/-- C2, amended: along every reachable execution, (i) the rank strictly
decreases at each step, so every execution reaches a terminal configuration;
(ii) every terminal reachable configuration has the worker finished and the
consumer returned a contract, and its status is `Working` only when the
consumer stole and consumed the task before the worker's swap (the worker's
unconditional swap then re-enters `Working` with nobody left to leave it —
harmless, as the consumer has already returned); (iii) every step out of a
`Working` status is the worker's storing of `Prepared`, so while the worker is
preparing exactly one party — the worker — transitions the task out of
`Working`. -/
theorem c2_amended (s : MConfig) (h : MReach MInit s) :
    (∀ t ∈ nexts s, mrank t < mrank s) ∧
    (nexts s = [] →
      ((s.c = .retWorker ∨ s.c = .retInline) ∧ s.w = .done ∧
        (s.st = .working → s.c = .retInline))) ∧
    (∀ t ∈ nexts s, s.st = .working → t.st ≠ .working →
      (t.st = .preparedW ∧ s.w = .prep ∧ t.w = .done ∧ t.c = s.c)) := by
  have hmem := reach_mem_reachableSet s h
  have hall : ∀ x ∈ reachableSet,
      (∀ t ∈ nexts x, mrank t < mrank x) ∧
      (nexts x = [] →
        ((x.c = .retWorker ∨ x.c = .retInline) ∧ x.w = .done ∧
          (x.st = .working → x.c = .retInline))) ∧
      (∀ t ∈ nexts x, x.st = .working → t.st ≠ .working →
        (t.st = .preparedW ∧ x.w = .prep ∧ t.w = .done ∧ t.c = x.c)) := by
    decide
  exact hall s hmem

theorem c2_amended_witness :
    (∀ t ∈ nexts MInit, mrank t < mrank MInit) ∧
    (nexts MInit = [] →
      ((MInit.c = .retWorker ∨ MInit.c = .retInline) ∧ MInit.w = .done ∧
        (MInit.st = .working → MInit.c = .retInline))) ∧
    (∀ t ∈ nexts MInit, MInit.st = .working → t.st ≠ .working →
      (t.st = .preparedW ∧ MInit.w = .prep ∧ t.w = .done ∧ t.c = MInit.c)) :=
  c2_amended MInit Relation.ReflTransGen.refl

end Pipelining
